import Mathlib

/-!
Verification development for the AccuCheck dashboard (`app.py`).

The script's core pipeline is: column validation (line 90), a DuckDB
aggregation query grouping by `Region` and summing `Sales`, ordered by the
total descending (lines 99-107), a rule-based insight reading the first and
last row of the aggregated frame (lines 126-132), an LLM commentary call with
a disabled branch and a catch-all error branch (lines 35-64), and a chat
session stored in `st.session_state.chat_history` (lines 156-198).

Machine reals do not appear: `Sales` is modelled as `Int` (the script never
divides or rounds; sums of integer sales stay exact).  The LLM provider is an
oracle parameter of type `String → Except String String` (respectively
`List Turn → Except String String` for the chat endpoint): `Except.ok` is a
completed network call, `Except.error` is any provider-side exception, and a
branch that never consults the oracle performs no network access.
-/

namespace AccuCheck

/-- A data row restricted to the two semantic fields the core pipeline reads:
the `Region` cell (category) and the `Sales` cell (measure). -/
structure Row where
  region : String
  sales : Int
deriving DecidableEq

/-- Total of the `Sales` measure over the rows of one region: the value
`SUM(Sales)` computed for one `GROUP BY Region` group (lines 100-104). -/
def bucketTotal (df : List Row) (r : String) : Int :=
  ((df.filter (fun x => x.region = r)).map Row.sales).sum

/-- Embedding of the aggregation query of lines 99-107
(`SELECT Region, SUM(Sales) FROM df GROUP BY Region ORDER BY Total_Sales DESC`)
as a relation between the input frame and a result frame.  SQL fixes exactly
this much: the result has one row per distinct `Region` value of the input
(no duplicates, no extras), each row carries the sum of `Sales` over its
group, and the rows are ordered by total descending.  The relative order of
rows with equal totals is NOT fixed by the query: DuckDB's hash aggregation
emits groups in an implementation-defined order and `ORDER BY` only
constrains the sort key.  Any output DuckDB may legally produce satisfies
this relation, and the relation contains nothing the query does not
guarantee. -/
def IsAggResult (df : List Row) (out : List (String × Int)) : Prop :=
  (∀ x ∈ df, x.region ∈ out.map Prod.fst) ∧
  (out.map Prod.fst).Nodup ∧
  (∀ p ∈ out, p.1 ∈ df.map Row.region ∧ p.2 = bucketTotal df p.1) ∧
  out.Pairwise (fun a b => b.2 ≤ a.2)

instance (df : List Row) (out : List (String × Int)) :
    Decidable (IsAggResult df out) := by
  unfold IsAggResult; infer_instance

/-- The distinct region names of a list of region cells, in order of first
occurrence.  This is the deterministic grouping order used by the executable
model of the query below. -/
def firstSeen : List String → List String
  | [] => []
  | r :: rest => r :: (firstSeen rest).filter (fun x => x ≠ r)

/-- Insert a (region, total) pair into a descending-sorted list, before the
first strictly smaller total (so an element inserted later in the fold, i.e.
earlier in the input, lands before equal totals). -/
def insertDesc (p : String × Int) : List (String × Int) → List (String × Int)
  | [] => [p]
  | q :: rest => if q.2 ≤ p.2 then p :: q :: rest else q :: insertDesc p rest

/-- Stable insertion sort by total, descending. -/
def sortDesc : List (String × Int) → List (String × Int)
  | [] => []
  | p :: rest => insertDesc p (sortDesc rest)

/-- Executable model of the aggregation query result `region_sales`
(line 107): one (region, total) pair per distinct region, sorted by total
descending.  It deterministically picks first-seen order among equal totals;
`region_sales_isAggResult` below proves it satisfies the query relation
`IsAggResult`. -/
def region_sales (df : List Row) : List (String × Int) :=
  sortDesc ((firstSeen (df.map Row.region)).map (fun k => (k, bucketTotal df k)))

/-- The rule-based commentary values of lines 126-132: top is `iloc[0]`
(first row of the aggregated frame), bottom is `iloc[-1]` (last row), gap is
their difference. -/
structure RuleInsight where
  topCategory : String
  topValue : Int
  bottomCategory : String
  bottomValue : Int
  gap : Int
deriving DecidableEq

/-- Lines 126-132 applied to an aggregated frame.  On a zero-row frame,
`region_sales.iloc[0]` raises `IndexError` (the script has no handler for
it), modelled by `none`; otherwise the insight is computed from the first and
last row. -/
def ruleInsight (out : List (String × Int)) : Option RuleInsight :=
  match out with
  | [] => none
  | p :: rest =>
    let last := (p :: rest).getLast (List.cons_ne_nil p rest)
    some ⟨p.1, p.2, last.1, last.2, p.2 - last.2⟩

/-- The sentinel returned by `generate_ai_commentary` when no API key is
configured (line 41). -/
def commentaryDisabledMsg : String :=
  "⚠️ AI Commentary tidak aktif (API Key belum diatur)."

/-- The sentinel built by the chat branch when no API key is configured
(line 193).  Note it is a different text than `commentaryDisabledMsg`. -/
def chatDisabledMsg : String :=
  "⚠️ AI Chat tidak aktif (API Key belum diatur)."

/-- One line of the plain-text rendering of the aggregated frame
(`region_sales.to_string(index=False)`, line 44); column alignment is
abstracted, one row per line in frame order is kept. -/
def summaryLine (p : String × Int) : String :=
  p.1 ++ " " ++ toString p.2

/-- The prompt of lines 46-54: the rendered table followed by the fixed
instruction template asking for dominant region, region needing attention,
and a strategic insight. -/
def mkPrompt (rs : List (String × Int)) : String :=
  "Berikut adalah data penjualan per region:\n"
    ++ String.intercalate "\n" (rs.map summaryLine)
    ++ "\nSebagai analis bisnis, buat analisis singkat dalam bahasa Indonesia:\n"
    ++ "1. Region mana yang paling dominan\n"
    ++ "2. Region mana yang perlu perhatian\n"
    ++ "3. Insight strategis singkat untuk manajemen"

/-- `generate_ai_commentary` (lines 35-64).  `hasClient` is whether
`GROQ_API_KEY` was set at start-up (lines 24-30); `llm` is the provider
oracle.  With no client the fixed sentinel is returned at once and the
oracle is never consulted (no network access); otherwise the completion text
is returned unmodified on success, and any provider exception `e` is caught
and turned into the text of line 64. -/
def generate_ai_commentary (llm : String → Except String String)
    (hasClient : Bool) (rs : List (String × Int)) : String :=
  if hasClient then
    match llm (mkPrompt rs) with
    | Except.ok text => text
    | Except.error e => "❌ Error AI Commentary: " ++ e
  else
    commentaryDisabledMsg

/-- One chat transcript entry of `st.session_state.chat_history`: a dict
with a `role` and a `content` key (lines 157-166, 177-179, 195-197). -/
structure Turn where
  role : String
  content : String
deriving DecidableEq

/-- The fixed persona instruction seeded as the `system` turn (line 160). -/
def personaMsg : String :=
  "Anda adalah analis bisnis yang membantu memahami data penjualan."

/-- The two seed turns of lines 157-166: the `system` persona turn, then an
`assistant` turn carrying the commentary text verbatim. -/
def seedTurns (aiText : String) : List Turn :=
  [⟨"system", personaMsg⟩, ⟨"assistant", aiText⟩]

/-- The `chat_history` initialization guard of lines 156-166, run on every
script rerun (hence on every dataset ingestion): when no `chat_history`
exists in `st.session_state` it is created seeded from the current
commentary text; when one already exists, it is left exactly as it is.
`st.session_state` outlives reruns, so `none` only occurs on the first
dataset of a browser session. -/
def initChat (aiText : String) :
    Option (List Turn) → Option (List Turn)
  | none => some (seedTurns aiText)
  | some h => some h

/-- The assistant answer of lines 182-193, computed from a transcript that
already ends with the newest user turn: with a client, the provider is
called on the entire transcript and any exception `e` is caught into the
text of line 191; with no client the fixed chat sentinel is used and the
oracle is never consulted. -/
def chatAnswer (llmChat : List Turn → Except String String)
    (hasClient : Bool) (history : List Turn) : String :=
  if hasClient then
    match llmChat history with
    | Except.ok text => text
    | Except.error e => "❌ Error chat AI: " ++ e
  else
    chatDisabledMsg

/-- One chat interaction (lines 176-198): the user turn with the submitted
question is appended, the answer is computed by `chatAnswer` from the entire
transcript including that new user turn, and the answer is appended as an
`assistant` turn. -/
def submitUserTurn (llmChat : List Turn → Except String String)
    (hasClient : Bool) (history : List Turn) (question : String) : List Turn :=
  let h1 := history ++ [⟨"user", question⟩]
  h1 ++ [⟨"assistant", chatAnswer llmChat hasClient h1⟩]

/-- The uploaded table as the validator sees it: its column names and its
raw (untyped) cell rows.  Line 90 reads only `df.columns`. -/
structure Table where
  columns : List String
  cells : List (List String)
deriving DecidableEq

/-- The validation check of line 90:
`{"Region", "Sales"}.issubset(df.columns)`.  It depends on nothing but the
column names. -/
def validateCols (cols : List String) : Bool :=
  decide ("Region" ∈ cols) && decide ("Sales" ∈ cols)

/-- The warning of line 91, shown when validation fails.  It is a fixed text
naming both required columns. -/
def warningText : String :=
  "⚠️ Data harus memiliki kolom `Region` dan `Sales`."

/-- Outcome of one script run over one uploaded dataset (lines 90-148).
`missingColumns` is the `st.warning` + `st.stop()` halt of lines 91-92
(nothing after line 92 runs); `crashed` is the uncaught `IndexError` raised
by `region_sales.iloc[0]` at line 126 when the aggregated frame has zero
rows (the summary had been computed, no insight and no commentary is
produced); `ok` carries the aggregated summary, the rule insight and the AI
commentary text. -/
inductive RunResult where
  | missingColumns (warning : String)
  | crashed (summary : List (String × Int))
  | ok (summary : List (String × Int)) (insight : RuleInsight) (aiText : String)
deriving DecidableEq

/-- One script run over one uploaded dataset (lines 90-148): validate the
column names; on success run the aggregation query (its typed view `core`
lists the (Region, Sales) cells in row order), then the rule-based insight,
then the AI commentary. -/
def runScript (llm : String → Except String String) (hasClient : Bool)
    (t : Table) (core : List Row) : RunResult :=
  if validateCols t.columns then
    let summary := region_sales core
    match ruleInsight summary with
    | none => RunResult.crashed summary
    | some ins => RunResult.ok summary ins (generate_ai_commentary llm hasClient summary)
  else
    RunResult.missingColumns warningText

/-- Whether `leadsWith needle hay`: `needle` is an initial run of `hay`. -/
def leadsWith : List Char → List Char → Bool
  | [], _ => true
  | _ :: _, [] => false
  | a :: as, b :: bs => a == b && leadsWith as bs

/-- Whether `needle` occurs as a contiguous run somewhere in `hay`. -/
def containsRun (needle : List Char) : List Char → Bool
  | [] => needle.isEmpty
  | c :: t => leadsWith needle (c :: t) || containsRun needle t

/-- Whether the text `msg` mentions `name` verbatim. -/
def mentions (msg name : String) : Bool :=
  containsRun name.data msg.data

/-- Formalization of the tie-break property claimed by the spec (from the
spec's words, to be compared against the query relation `IsAggResult`):
among rows of the summary with equal totals, the one whose region occurs
earlier in the input frame comes first. -/
def firstSeenTieOrder (df : List Row) (out : List (String × Int)) : Prop :=
  ∀ i j : Fin out.length, i < j → (out.get i).2 = (out.get j).2 →
    (df.map Row.region).indexOf (out.get i).1 ≤ (df.map Row.region).indexOf (out.get j).1

instance (df : List Row) (out : List (String × Int)) :
    Decidable (firstSeenTieOrder df out) := by
  unfold firstSeenTieOrder; infer_instance

/-! ## Helper lemmas -/

theorem bucketTotal_cons (x : Row) (xs : List Row) (r : String) :
    bucketTotal (x :: xs) r =
      if x.region = r then x.sales + bucketTotal xs r else bucketTotal xs r := by
  by_cases h : x.region = r <;> simp [bucketTotal, List.filter_cons, h]

theorem sum_map_filter_add (p : Row → Bool) (l : List Row) :
    ((l.filter p).map Row.sales).sum
      + ((l.filter (fun x => !(p x))).map Row.sales).sum
      = (l.map Row.sales).sum := by
  induction l with
  | nil => simp
  | cons x xs ih => cases hp : p x <;> simp [hp] <;> omega

theorem bucketTotal_filter_ne (l : List Row) (k r : String) (h : r ≠ k) :
    bucketTotal (l.filter (fun x => !(decide (x.region = k)))) r = bucketTotal l r := by
  induction l with
  | nil => rfl
  | cons x xs ih =>
    by_cases hx : x.region = k
    · have hxr : ¬ x.region = r := fun hr => h (hr ▸ hx ▸ rfl)
      simp [List.filter_cons, hx, bucketTotal_cons, hxr, ih, Ne.symm h]
    · simp [List.filter_cons, hx, bucketTotal_cons, ih]

/-- Summing the per-group totals over any duplicate-free list of keys that
covers every row's region recovers the total of the measure. -/
theorem sum_buckets (ks : List String) (l : List Row) (hnd : ks.Nodup)
    (hcov : ∀ x ∈ l, x.region ∈ ks) :
    (ks.map (bucketTotal l)).sum = (l.map Row.sales).sum := by
  induction ks generalizing l with
  | nil =>
    cases l with
    | nil => simp
    | cons y ys => exact absurd (hcov y (List.mem_cons_self y ys)) (List.not_mem_nil _)
  | cons k ks ih =>
    have hknotin : k ∉ ks := (List.nodup_cons.mp hnd).1
    have hndks : ks.Nodup := (List.nodup_cons.mp hnd).2
    set l2 := l.filter (fun x => !(decide (x.region = k))) with hl2
    have hcov2 : ∀ x ∈ l2, x.region ∈ ks := by
      intro x hx
      rw [hl2, List.mem_filter] at hx
      have hxk : x.region ≠ k := by
        have := hx.2
        simpa using this
      rcases List.mem_cons.mp (hcov x hx.1) with hxe | hxm
      · exact absurd hxe hxk
      · exact hxm
    have hmaps : ks.map (bucketTotal l) = ks.map (bucketTotal l2) := by
      refine List.map_congr_left ?_
      intro r hr
      have hrk : r ≠ k := fun hrk => hknotin (hrk ▸ hr)
      exact (bucketTotal_filter_ne l k r hrk).symm
    have hsplit :
        bucketTotal l k + (l2.map Row.sales).sum = (l.map Row.sales).sum := by
      have := sum_map_filter_add (fun x => decide (x.region = k)) l
      simpa [bucketTotal, hl2] using this
    calc ((k :: ks).map (bucketTotal l)).sum
        = bucketTotal l k + (ks.map (bucketTotal l)).sum := by simp
      _ = bucketTotal l k + (ks.map (bucketTotal l2)).sum := by rw [hmaps]
      _ = bucketTotal l k + (l2.map Row.sales).sum := by rw [ih l2 hndks hcov2]
      _ = (l.map Row.sales).sum := hsplit

theorem mem_firstSeen (l : List String) (x : String) :
    x ∈ firstSeen l ↔ x ∈ l := by
  induction l with
  | nil => simp [firstSeen]
  | cons r rest ih =>
    by_cases hx : x = r
    · simp [firstSeen, hx]
    · simp [firstSeen, hx, List.mem_filter, ih]

theorem nodup_firstSeen (l : List String) : (firstSeen l).Nodup := by
  induction l with
  | nil => simp [firstSeen]
  | cons r rest ih =>
    rw [firstSeen, List.nodup_cons]
    constructor
    · intro hmem
      rw [List.mem_filter] at hmem
      simpa using hmem.2
    · exact List.Nodup.filter _ ih

theorem insertDesc_perm (p : String × Int) (l : List (String × Int)) :
    List.Perm (insertDesc p l) (p :: l) := by
  induction l with
  | nil => exact List.Perm.refl _
  | cons q rest ih =>
    by_cases h : q.2 ≤ p.2
    · simp [insertDesc, h]
    · rw [insertDesc, if_neg h]
      exact List.Perm.trans (ih.cons q) (List.Perm.swap p q rest)

theorem insertDesc_pairwise (p : String × Int) (l : List (String × Int))
    (h : l.Pairwise (fun a b => b.2 ≤ a.2)) :
    (insertDesc p l).Pairwise (fun a b => b.2 ≤ a.2) := by
  induction l with
  | nil => simp [insertDesc]
  | cons q rest ih =>
    rcases List.pairwise_cons.mp h with ⟨hq, hrest⟩
    by_cases hle : q.2 ≤ p.2
    · rw [insertDesc, if_pos hle]
      refine List.pairwise_cons.mpr ⟨?_, h⟩
      intro b hb
      rcases List.mem_cons.mp hb with rfl | hb
      · exact hle
      · exact le_trans (hq b hb) hle
    · rw [insertDesc, if_neg hle]
      refine List.pairwise_cons.mpr ⟨?_, ih hrest⟩
      intro b hb
      rcases List.mem_cons.mp ((insertDesc_perm p rest).mem_iff.mp hb) with rfl | hb
      · exact le_of_not_le hle
      · exact hq b hb

theorem sortDesc_perm (l : List (String × Int)) : List.Perm (sortDesc l) l := by
  induction l with
  | nil => exact List.Perm.refl _
  | cons p rest ih =>
    exact List.Perm.trans (insertDesc_perm p (sortDesc rest)) (ih.cons p)

theorem sortDesc_pairwise (l : List (String × Int)) :
    (sortDesc l).Pairwise (fun a b => b.2 ≤ a.2) := by
  induction l with
  | nil => simp [sortDesc]
  | cons p rest ih => exact insertDesc_pairwise p (sortDesc rest) ih

/-- The executable model of the query satisfies the query relation: its
output is a legal result of the aggregation of lines 99-107. -/
theorem region_sales_isAggResult (df : List Row) : IsAggResult df (region_sales df) := by
  have hperm : List.Perm (region_sales df)
      ((firstSeen (df.map Row.region)).map (fun k => (k, bucketTotal df k))) :=
    sortDesc_perm _
  have hfst : ((firstSeen (df.map Row.region)).map
      (fun k => (k, bucketTotal df k))).map Prod.fst = firstSeen (df.map Row.region) := by
    rw [List.map_map]
    exact List.map_id _
  refine ⟨?_, ?_, ?_, sortDesc_pairwise _⟩
  · intro x hx
    refine ((hperm.map Prod.fst).mem_iff).mpr ?_
    rw [hfst, mem_firstSeen]
    exact List.mem_map.mpr ⟨x, hx, rfl⟩
  · refine ((hperm.map Prod.fst).nodup_iff).mpr ?_
    rw [hfst]
    exact nodup_firstSeen _
  · intro p hp
    rcases List.mem_map.mp (hperm.mem_iff.mp hp) with ⟨k, hk, rfl⟩
    exact ⟨(mem_firstSeen _ _).mp hk, rfl⟩

/-- A row of one legal query result is a row of any other legal query
result on the same frame. -/
theorem isAggResult_mem_mono (df : List Row) (o1 o2 : List (String × Int))
    (hcov : ∀ x ∈ df, x.region ∈ o2.map Prod.fst)
    (hv1 : ∀ p ∈ o1, p.1 ∈ df.map Row.region ∧ p.2 = bucketTotal df p.1)
    (hv2 : ∀ p ∈ o2, p.1 ∈ df.map Row.region ∧ p.2 = bucketTotal df p.1)
    (p : String × Int) (hp : p ∈ o1) : p ∈ o2 := by
  obtain ⟨hreg, hval⟩ := hv1 p hp
  rcases List.mem_map.mp hreg with ⟨x, hx, hxr⟩
  rcases List.mem_map.mp (hcov x hx) with ⟨q, hq, hqr⟩
  have hq1 : q.1 = p.1 := by rw [hqr, hxr]
  have hq2 : q.2 = p.2 := by rw [(hv2 q hq).2, hq1, ← hval]
  have : q = p := Prod.ext hq1 hq2
  rwa [← this]

/-- Any two legal results of the aggregation query on the same frame hold
the same rows (they are permutations of one another). -/
theorem isAggResult_perm (df : List Row) (out1 out2 : List (String × Int))
    (h1 : IsAggResult df out1) (h2 : IsAggResult df out2) :
    List.Perm out1 out2 := by
  obtain ⟨hcov1, hnd1, hval1, _⟩ := h1
  obtain ⟨hcov2, hnd2, hval2, _⟩ := h2
  have hn1 : out1.Nodup := List.Nodup.of_map Prod.fst hnd1
  have hn2 : out2.Nodup := List.Nodup.of_map Prod.fst hnd2
  refine List.perm_of_nodup_nodup_toFinset_eq hn1 hn2 ?_
  ext p
  simp only [List.mem_toFinset]
  exact ⟨isAggResult_mem_mono df out1 out2 hcov2 hval1 hval2 p,
    isAggResult_mem_mono df out2 out1 hcov1 hval2 hval1 p⟩

/-! ## Claims -/

/-- C1.  For every non-empty validated Dataset, the sum of the totals of any
legal result of the aggregation query equals the sum of the `Sales` measure
over all rows of the Dataset (conservation of the aggregated quantity). -/
theorem agg_totals_conserve_sum (df : List Row) (out : List (String × Int))
    (_hne : df ≠ []) (h : IsAggResult df out) :
    (out.map Prod.snd).sum = (df.map Row.sales).sum := by
  obtain ⟨hcov, hnd, hval, _⟩ := h
  have h1 : out.map Prod.snd = out.map (fun p => bucketTotal df p.1) :=
    List.map_congr_left (fun p hp => (hval p hp).2)
  have h2 : out.map (fun p => bucketTotal df p.1)
      = (out.map Prod.fst).map (bucketTotal df) := by
    rw [List.map_map]
    rfl
  rw [h1, h2]
  exact sum_buckets (out.map Prod.fst) df hnd hcov

/-- Witness for C1: on the spec's example frame
`[(A,100), (B,40), (A,20)]` with summary `[(A,120), (B,40)]`, both sides sum
to 160. -/
theorem agg_totals_conserve_sum_witness :
    (([(("A" : String), (120 : Int)), ("B", 40)]).map Prod.snd).sum
      = (([⟨"A", 100⟩, ⟨"B", 40⟩, ⟨"A", 20⟩] : List Row).map Row.sales).sum :=
  agg_totals_conserve_sum [⟨"A", 100⟩, ⟨"B", 40⟩, ⟨"A", 20⟩]
    [("A", 120), ("B", 40)] (by decide) (by decide)

/-- C4 (counterexample).  On the frame `[(A,1), (B,1)]` the result
`[(B,1), (A,1)]` is a legal output of the aggregation query (the SQL fixes
only the descending order of totals), yet it violates the claimed
first-seen tie order: the code does not guarantee the claimed tie-break. -/
theorem tie_order_not_first_seen :
    IsAggResult [⟨"A", 1⟩, ⟨"B", 1⟩] [("B", 1), ("A", 1)] ∧
    ¬ firstSeenTieOrder [⟨"A", 1⟩, ⟨"B", 1⟩] [("B", 1), ("A", 1)] := by
  constructor
  · decide
  · decide

/-- C4 (amended).  Every legal result of the aggregation query is sorted by
total descending, and the result is unique up to the order of equal-total
rows: any two legal results on the same frame are permutations of one
another with identical total sequences.  (The relative order of equal-total
categories is the one part the code leaves open.) -/
theorem agg_sorted_and_unique_up_to_perm (df : List Row)
    (out1 out2 : List (String × Int))
    (h1 : IsAggResult df out1) (h2 : IsAggResult df out2) :
    out1.Pairwise (fun a b => b.2 ≤ a.2) ∧
    List.Perm out1 out2 ∧
    out1.map Prod.snd = out2.map Prod.snd := by
  have hperm : List.Perm out1 out2 := isAggResult_perm df out1 out2 h1 h2
  refine ⟨h1.2.2.2, hperm, ?_⟩
  haveI : IsAntisymm Int (fun a b : Int => b ≤ a) :=
    ⟨fun a b ha hb => le_antisymm hb ha⟩
  refine List.eq_of_perm_of_sorted (r := fun a b : Int => b ≤ a)
    (hperm.map Prod.snd) ?_ ?_
  · exact (List.pairwise_map).mpr h1.2.2.2
  · exact (List.pairwise_map).mpr h2.2.2.2

/-- Witness for C4 (amended): the spec's example frame with its summary,
taken as both results. -/
theorem agg_sorted_and_unique_up_to_perm_witness :
    ([(("A" : String), (120 : Int)), ("B", 40)]).Pairwise (fun a b => b.2 ≤ a.2) ∧
    List.Perm [(("A" : String), (120 : Int)), ("B", 40)]
      [(("A" : String), (120 : Int)), ("B", 40)] ∧
    ([(("A" : String), (120 : Int)), ("B", 40)]).map Prod.snd
      = ([(("A" : String), (120 : Int)), ("B", 40)]).map Prod.snd :=
  agg_sorted_and_unique_up_to_perm [⟨"A", 100⟩, ⟨"B", 40⟩, ⟨"A", 20⟩]
    [("A", 120), ("B", 40)] [("A", 120), ("B", 40)] (by decide) (by decide)

/-- C5.  For every non-empty aggregated summary, the rule-based insight is
computed without error, takes the first row as top and the last row as
bottom, satisfies `gap = topValue − bottomValue`, and on a one-row summary
has `topCategory = bottomCategory` and `gap = 0`. -/
theorem rule_insight_head_last_gap (out : List (String × Int)) (h : out ≠ []) :
    ∃ ins : RuleInsight, ruleInsight out = some ins ∧
      ins.topCategory = (out.head h).1 ∧ ins.topValue = (out.head h).2 ∧
      ins.bottomCategory = (out.getLast h).1 ∧
      ins.bottomValue = (out.getLast h).2 ∧
      ins.gap = ins.topValue - ins.bottomValue ∧
      (out.length = 1 → ins.topCategory = ins.bottomCategory ∧ ins.gap = 0) := by
  match out with
  | p :: rest =>
    refine ⟨_, rfl, rfl, rfl, rfl, rfl, rfl, ?_⟩
    intro hlen
    have hrest : rest = [] := by
      cases rest with
      | nil => rfl
      | cons a as => simp at hlen
    subst hrest
    simp [ruleInsight]

/-- Witness for C5: the spec's one-row scenario `[(X,50)]` — the insight
exists, with equal top and bottom and gap `topValue − bottomValue`. -/
theorem rule_insight_head_last_gap_witness :
    ∃ ins : RuleInsight, ruleInsight [(("X" : String), (50 : Int))] = some ins ∧
      ins.gap = ins.topValue - ins.bottomValue ∧
      ins.topCategory = ins.bottomCategory := by
  obtain ⟨ins, h1, _, _, _, _, h6, h7⟩ :=
    rule_insight_head_last_gap [(("X" : String), (50 : Int))] (by decide)
  exact ⟨ins, h1, h6, (h7 rfl).1⟩

/-- C2 (code evaluated at the failing input).  On a validated dataset with
zero rows the aggregation query does not fail: it succeeds with a zero-row
summary.  The run then stops in the `crashed` state, the model of the
uncaught `IndexError` raised by `region_sales.iloc[0]` at line 126 — there
is no `EmptyDatasetError` anywhere in the script — and no rule insight is
computed. -/
theorem empty_dataset_run_crashes (llm : String → Except String String)
    (hasClient : Bool) :
    runScript llm hasClient ⟨["Region", "Sales"], []⟩ [] = RunResult.crashed [] ∧
    region_sales [] = [] ∧
    IsAggResult [] [] ∧
    ruleInsight (region_sales []) = none := by
  refine ⟨rfl, rfl, by decide, rfl⟩

/-- C6.  Whenever `Region` or `Sales` (or both) is missing from the uploaded
table's columns, the run halts at line 92 with the fixed warning and nothing
downstream runs (no aggregation, no insight, no commentary); the warning
text names every absent required field. -/
theorem missing_columns_halts_pipeline (llm : String → Except String String)
    (hasClient : Bool) (t : Table) (core : List Row)
    (h : ¬ ("Region" ∈ t.columns ∧ "Sales" ∈ t.columns)) :
    runScript llm hasClient t core = RunResult.missingColumns warningText ∧
    (∀ c ∈ (["Region", "Sales"] : List String), c ∉ t.columns →
      mentions warningText c = true) := by
  have hv : validateCols t.columns = false := by
    unfold validateCols
    rcases not_and_or.mp h with h1 | h1 <;> simp [h1]
  constructor
  · simp [runScript, hv]
  · intro c hc _
    rcases List.mem_cons.mp hc with rfl | hc
    · decide
    · rcases List.mem_cons.mp hc with rfl | hc
      · decide
      · exact absurd hc (List.not_mem_nil c)

/-- Witness for C6: a table whose columns are `[Region, Other]` (no `Sales`)
halts with the warning. -/
theorem missing_columns_halts_pipeline_witness :
    runScript (fun _ => Except.error "") true ⟨["Region", "Other"], []⟩ []
      = RunResult.missingColumns warningText :=
  (missing_columns_halts_pipeline (fun _ => Except.error "") true
    ⟨["Region", "Other"], []⟩ [] (by decide)).1

/-- C7 (counterexample).  With no credential, the commentary call and the
chat call both return fixed texts, but different ones: there is no single
fixed disabled-mode sentinel returned by every call. -/
theorem disabled_sentinels_differ :
    generate_ai_commentary (fun _ => Except.error "") false []
      ≠ chatAnswer (fun _ => Except.error "") false [] ∧
    generate_ai_commentary (fun _ => Except.error "") false []
      = commentaryDisabledMsg ∧
    chatAnswer (fun _ => Except.error "") false [] = chatDisabledMsg := by
  refine ⟨by decide, rfl, rfl⟩

/-- C7 (amended).  With no credential, every commentary call returns the
fixed commentary sentinel and every chat call (including the one made for a
submitted user turn) returns the fixed chat sentinel — the two sentinels
being different texts — and neither call consults the provider oracle (the
result is identical under any two oracles): no network access is made. -/
theorem disabled_mode_fixed_sentinels
    (llm llm2 : String → Except String String)
    (llmChat llmChat2 : List Turn → Except String String)
    (rs : List (String × Int)) (history : List Turn) (q : String) :
    generate_ai_commentary llm false rs = commentaryDisabledMsg ∧
    generate_ai_commentary llm false rs = generate_ai_commentary llm2 false rs ∧
    chatAnswer llmChat false history = chatDisabledMsg ∧
    chatAnswer llmChat false history = chatAnswer llmChat2 false history ∧
    submitUserTurn llmChat false history q
      = history ++ [⟨"user", q⟩, ⟨"assistant", chatDisabledMsg⟩] := by
  refine ⟨rfl, rfl, rfl, rfl, ?_⟩
  simp [submitUserTurn, chatAnswer]

/-- C8.  With a client configured, every provider outcome yields an ordinary
text value: a successful completion is returned unmodified, and a provider
error is caught and embedded into the fixed error text, for both the
commentary call and the chat call — no provider error escapes either
function. -/
theorem provider_errors_absorbed
    (llm : String → Except String String)
    (llmChat : List Turn → Except String String)
    (rs : List (String × Int)) (history : List Turn) :
    ((∃ t, llm (mkPrompt rs) = Except.ok t ∧
        generate_ai_commentary llm true rs = t) ∨
     (∃ e, llm (mkPrompt rs) = Except.error e ∧
        generate_ai_commentary llm true rs = "❌ Error AI Commentary: " ++ e)) ∧
    ((∃ t, llmChat history = Except.ok t ∧ chatAnswer llmChat true history = t) ∨
     (∃ e, llmChat history = Except.error e ∧
        chatAnswer llmChat true history = "❌ Error chat AI: " ++ e)) := by
  constructor
  · cases h : llm (mkPrompt rs) with
    | ok t => exact Or.inl ⟨t, rfl, by simp [generate_ai_commentary, h]⟩
    | error e => exact Or.inr ⟨e, rfl, by simp [generate_ai_commentary, h]⟩
  · cases h : llmChat history with
    | ok t => exact Or.inl ⟨t, rfl, by simp [chatAnswer, h]⟩
    | error e => exact Or.inr ⟨e, rfl, by simp [chatAnswer, h]⟩

/-- C9.  The transcript only grows by the specified appends: seeding an
uninitialized session produces exactly the `system` persona turn followed by
the `assistant` turn carrying the commentary verbatim; submitting a user
turn appends exactly one `user` turn with the given text and then one
`assistant` turn computed from the entire transcript (including the new user
turn); the previous transcript survives unchanged as a prefix (no turn is
edited, removed or reordered) and the length grows by exactly 2. -/
theorem transcript_append_only_structure (ai : String)
    (llmChat : List Turn → Except String String) (hasClient : Bool)
    (h : List Turn) (q : String) :
    initChat ai none = some [⟨"system", personaMsg⟩, ⟨"assistant", ai⟩] ∧
    (seedTurns ai).length = 2 ∧
    submitUserTurn llmChat hasClient h q
      = h ++ [⟨"user", q⟩,
          ⟨"assistant", chatAnswer llmChat hasClient (h ++ [⟨"user", q⟩])⟩] ∧
    (submitUserTurn llmChat hasClient h q).take h.length = h ∧
    (submitUserTurn llmChat hasClient h q).length = h.length + 2 := by
  refine ⟨rfl, rfl, by simp [submitUserTurn], ?_, by simp [submitUserTurn]⟩
  have : submitUserTurn llmChat hasClient h q
      = h ++ [⟨"user", q⟩,
          ⟨"assistant", chatAnswer llmChat hasClient (h ++ [⟨"user", q⟩])⟩] := by
    simp [submitUserTurn]
  rw [this, List.take_left]

/-- C3 (counterexample).  A session that already holds a transcript (seeded
while the first dataset was ingested) and then ingests a second dataset
keeps the first transcript unchanged: its length is 2, not 0, and it still
carries the first dataset's commentary, not the second's — the session is
not reset. -/
theorem second_ingest_keeps_transcript :
    initChat "commentary-two" (initChat "commentary-one" none)
      = some (seedTurns "commentary-one") ∧
    (seedTurns "commentary-one").length ≠ 0 ∧
    seedTurns "commentary-one" ≠ seedTurns "commentary-two" := by
  refine ⟨rfl, by decide, by decide⟩

/-- C3 (amended).  Ingesting a dataset never resets the session: a second
ingestion leaves the session state exactly as the first left it, an
existing transcript is kept unchanged whatever is ingested, and only an
uninitialized session (the first dataset of the browser session) gets
seeded. -/
theorem ingest_never_resets (ai ai2 : String) (s : Option (List Turn)) :
    initChat ai2 (initChat ai s) = initChat ai s ∧
    (∀ t : List Turn, initChat ai (some t) = some t) ∧
    initChat ai none = some (seedTurns ai) := by
  refine ⟨?_, fun t => rfl, rfl⟩
  cases s <;> rfl

/-- C10.  The validator's verdict depends only on the column names: two
tables with the same column-name membership validate identically; in
particular a table whose `Sales` column holds a non-numeric cell still
passes validation and the run proceeds past the validation gate into the
aggregation stage. -/
theorem validation_depends_only_on_columns :
    (∀ t1 t2 : Table, (∀ c : String, c ∈ t1.columns ↔ c ∈ t2.columns) →
      validateCols t1.columns = validateCols t2.columns) ∧
    validateCols (Table.mk ["Region", "Sales"] [["north", "not-a-number"]]).columns
      = true ∧
    (∀ (llm : String → Except String String) (hasClient : Bool) (core : List Row),
      runScript llm hasClient ⟨["Region", "Sales"], [["north", "not-a-number"]]⟩ core
        ≠ RunResult.missingColumns warningText) := by
  refine ⟨?_, by decide, ?_⟩
  · intro t1 t2 hiff
    unfold validateCols
    rw [decide_eq_decide.mpr (hiff "Region"), decide_eq_decide.mpr (hiff "Sales")]
  · intro llm hasClient core
    unfold runScript
    rw [if_pos (by decide)]
    cases h : ruleInsight (region_sales core) <;> simp [h]

/-- Witness for C10: the column lists `[Sales, Region]` (with no cells) and
`[Region, Sales]` (with a non-numeric cell) have the same column-name
membership, so they validate identically. -/
theorem validation_depends_only_on_columns_witness :
    validateCols (Table.mk ["Sales", "Region"] []).columns
      = validateCols (Table.mk ["Region", "Sales"] [["x", "y"]]).columns :=
  validation_depends_only_on_columns.1 ⟨["Sales", "Region"], []⟩
    ⟨["Region", "Sales"], [["x", "y"]]⟩
    (by intro c; constructor <;> (intro hc; simp [List.mem_cons] at hc ⊢; tauto))

end AccuCheck
